import Mathlib

/-!
Verification of the markdown-to-document core of `mcp-server-docx`.

The development shallowly embeds the TypeScript sources
`src/markdown-parser.ts` (block parser) and `src/document-manager.ts`
(inline formatter, style resolution, content-to-element mapping, session
lifecycle).  Strings are modelled as `List Char` (JS strings are char
sequences); JS regular expressions used by the code are small enough to be
translated into explicit deterministic character scans, noted at each
definition.  Whitespace is modelled as the ASCII whitespace characters
(space, tab, LF, VT, FF, CR), the fragment of JS `\s` / `String.trim`
exercised by this code base; `\n` is modelled as the sole line terminator
(for the `m`-flag anchors and for `.`), matching the `split('\n')` line
structure the code itself uses.  Note that JS `\s` matches `\n`, so the
`m`-flagged block regexes can match across a newline inside a multi-line
block; the embedding models them as match attempts at every line-start
suffix of the block, not per line.
-/

namespace MCPDocx

/-- JS strings, modelled as lists of characters. -/
abbrev Str := List Char

/-- Line feed character. -/
def nlChar : Char := Char.ofNat 10

/-- Horizontal tab character. -/
def tabChar : Char := Char.ofNat 9

/-- Vertical tab character. -/
def vtChar : Char := Char.ofNat 11

/-- Form feed character. -/
def ffChar : Char := Char.ofNat 12

/-- Carriage return character. -/
def crChar : Char := Char.ofNat 13

/-- ASCII fragment of the JS `\s` character class / `String.trim`. -/
def isWs (c : Char) : Bool :=
  c = ' ' || c = tabChar || c = nlChar || c = vtChar || c = ffChar || c = crChar

/-- Leading-whitespace removal (left half of JS `String.prototype.trim`). -/
def trimLeft (l : Str) : Str := l.dropWhile isWs

/-- Trailing-whitespace removal (right half of JS `String.prototype.trim`). -/
def trimRight (l : Str) : Str := (l.reverse.dropWhile isWs).reverse

/-- JS `String.prototype.trim`. -/
def trim (l : Str) : Str := trimLeft (trimRight l)

/-- JS `str.split('\n')`: always at least one (possibly empty) line. -/
def splitLines : Str → List Str
  | [] => [[]]
  | c :: cs =>
    if c = nlChar then [] :: splitLines cs
    else
      match splitLines cs with
      | [] => [[c]]
      | l :: ls => (c :: l) :: ls

/-- Join lines with `\n`, the inverse of `splitLines`; used to describe
multi-line inputs in theorem statements. -/
def joinLines : List Str → Str
  | [] => []
  | [l] => l
  | l :: ls => l ++ nlChar :: joinLines ls

/-- The suffixes of a string at each of its line starts (position 0 and the
position after every `\n`), given as the string's split lines: these are the
positions at which an `m`-flagged `^...` regex may match. -/
def lineSuffixes : List Str → List Str
  | [] => []
  | l :: ls => joinLines (l :: ls) :: lineSuffixes ls

/-- Number of leading `#` characters of a line. -/
def countHashes (l : Str) : Nat := (l.takeWhile (fun c => c = '#')).length

/-- Test of `/^#{1,6}\s+/` (markdown-parser.ts line 107): one to six leading
`#` followed by at least one whitespace character. -/
def isHeadingLine (l : Str) : Bool :=
  let k := countHashes l
  1 ≤ k && k ≤ 6 &&
    (match l.drop k with
     | c :: _ => isWs c
     | [] => false)

/-- Test of `/^[-*]\s+/` (markdown-parser.ts lines 48, 52, 106). -/
def isUnorderedLine : Str → Bool
  | c :: d :: _ => (c = '-' || c = '*') && isWs d
  | _ => false

/-- Test of `/^\d+\.\s+/` (markdown-parser.ts lines 65, 69, 106): one or more
digits, a dot, then at least one whitespace character. -/
def isOrderedLine (l : Str) : Bool :=
  let ds := l.takeWhile Char.isDigit
  1 ≤ ds.length &&
    (match l.drop ds.length with
     | c :: d :: _ => c = '.' && isWs d
     | _ => false)

/-- `isListItem` of markdown-parser.ts line 106. -/
def isListItemLine (l : Str) : Bool := isUnorderedLine l || isOrderedLine l

/-- `currentBlock += (currentBlock ? '\n' : '') + line` (markdown-parser.ts
lines 156, 167). -/
def appendLine (cur line : Str) : Str :=
  if cur = [] then line else cur ++ nlChar :: line

/-- Loop state of `splitIntoBlocks` (markdown-parser.ts lines 95-99). -/
structure SplitState where
  blocks : List Str
  currentBlock : Str
  inList : Bool
  emptyLineCount : Nat
deriving DecidableEq, Repr

/-- One iteration of the `splitIntoBlocks` loop (markdown-parser.ts
lines 101-169), translated branch for branch. -/
def splitStep (st : SplitState) (line : Str) : SplitState :=
  let trimmed := trim line
  let isListItem := isListItemLine trimmed
  let isHeading := isHeadingLine trimmed
  if trimmed = [] then
    -- blank line (lines 110-125)
    if st.inList then
      { blocks := st.blocks ++ [st.currentBlock], currentBlock := [],
        inList := false, emptyLineCount := st.emptyLineCount + 1 }
    else if trim st.currentBlock ≠ [] then
      { blocks := st.blocks ++ [st.currentBlock], currentBlock := [],
        inList := st.inList, emptyLineCount := st.emptyLineCount + 1 }
    else
      { st with emptyLineCount := st.emptyLineCount + 1 }
  else
    -- flush accumulated blank lines as spacer blocks (lines 128-134)
    let st :=
      if 0 < st.emptyLineCount then
        { st with blocks := st.blocks ++ List.replicate (st.emptyLineCount - 1) [],
                  emptyLineCount := 0 }
      else st
    if isHeading then
      -- lines 137-146
      let base :=
        if trim st.currentBlock ≠ [] then st.blocks ++ [st.currentBlock] else st.blocks
      { blocks := base ++ [line], currentBlock := [], inList := false,
        emptyLineCount := st.emptyLineCount }
    else if isListItem then
      -- lines 149-158
      let st :=
        if st.currentBlock ≠ [] && !st.inList then
          { st with blocks := st.blocks ++ [st.currentBlock], currentBlock := [] }
        else st
      { st with inList := true, currentBlock := appendLine st.currentBlock line }
    else
      -- regular line (lines 161-168)
      if st.inList then
        { st with blocks := st.blocks ++ [st.currentBlock], currentBlock := line,
                  inList := false }
      else
        { st with currentBlock := appendLine st.currentBlock line }

/-- `splitIntoBlocks` (markdown-parser.ts lines 94-177). -/
def splitIntoBlocks (markdown : Str) : List Str :=
  let fin := (splitLines markdown).foldl splitStep ⟨[], [], false, 0⟩
  if trim fin.currentBlock ≠ [] then fin.blocks ++ [fin.currentBlock] else fin.blocks

/-- `ContentItem.type` values (document-manager.ts line 134). -/
inductive ItemType where
  | paragraph
  | heading
  | bullets
  | ordered
deriving DecidableEq, Repr

/-- `ContentItem.format` (document-manager.ts lines 137-145); `none` models an
absent key. -/
structure Format where
  fontName : Option Str := none
  fontSize : Option Nat := none
  bold : Option Bool := none
  italic : Option Bool := none
  color : Option Str := none
  level : Option Nat := none
  borderBottom : Option Bool := none
deriving DecidableEq, Repr

/-- `ContentItem` (document-manager.ts lines 133-146). -/
structure ContentItem where
  type : Option ItemType := none
  text : Option Str := none
  items : Option (List Str) := none
  format : Option Format := none
deriving DecidableEq, Repr

/-- Match attempt of `^(#{1,6})\s+(.+)$` at one line start, on the whole
remaining suffix `l` of the block: a `#` run of length 1-6, then `\s+`
(greedy; JS `\s` also matches `\n`, so the run may cross line breaks), then
`(.+)` (one or more non-`\n` characters) and the `$` line anchor.  When the
whole remainder after the hashes is whitespace, `\s+` backtracks just enough
for `(.+)$` to match a single non-`\n` whitespace character - the last one
at index >= 1 of the run (everything after it is `\n`). -/
def matchHeadingAt (l : Str) : Option (Nat × Str) :=
  let k := countHashes l
  if 1 ≤ k && k ≤ 6 then
    let rest := l.drop k
    let ws := rest.takeWhile isWs
    let t0 := rest.dropWhile isWs
    if ws = [] then none
    else if t0 ≠ [] then some (k, t0.takeWhile (fun c => c ≠ nlChar))
    else
      let back := (ws.drop 1).filter (fun c => c ≠ nlChar)
      if back ≠ [] then some (k, [back.getLastD ' ']) else none
  else none

/-- `trimmed.match(/^(#{1,6})\s+(.+)$/m)` (markdown-parser.ts line 32): the
regex engine finds the leftmost match; `^` anchors it at a line start, so
the result is the first line-start suffix where `matchHeadingAt`
succeeds. -/
def blockHeadingMatch (blk : Str) : Option (Nat × Str) :=
  (lineSuffixes (splitLines blk)).findSome? matchHeadingAt

/-- `line.replace(/^[-*]\s+/, '').trim()` (markdown-parser.ts line 53):
drop the marker and the greedy whitespace run, then trim. -/
def unorderedItemText (l : Str) : Str := trim ((l.drop 1).dropWhile isWs)

/-- `line.replace(/^\d+\.\s+/, '').trim()` (markdown-parser.ts line 70). -/
def orderedItemText (l : Str) : Str :=
  let ds := (l.takeWhile Char.isDigit).length
  trim (((l.drop ds).drop 1).dropWhile isWs)

/-- Body of the `parseMarkdown` block loop (markdown-parser.ts lines 19-86):
items contributed by a single block.  The `m`-flagged probes
`/^[-*]\s+/m` and `/^\d+\.\s+/m` (lines 48, 65) are tested at every line
start against the whole remaining suffix, since JS `\s` matches `\n`; the
per-line filter and marker-stripping (lines 50-53, 67-70) use the unflagged
`/^[-*]\s+/` and `/^\d+\.\s+/` against each split line. -/
def parseBlock (block : Str) : List ContentItem :=
  let trimmed := trim block
  if trimmed = [] then
    [{ type := some .paragraph, text := some [] }]
  else
    match blockHeadingMatch trimmed with
    | some (level, text) =>
      [{ type := some .heading, text := some text,
         format := some { level := some level,
                          borderBottom := some (decide (level ≤ 2)) } }]
    | none =>
      if (lineSuffixes (splitLines trimmed)).any isUnorderedLine then
        let listItems := ((splitLines trimmed).filter isUnorderedLine).map unorderedItemText
        if 0 < listItems.length then
          [{ type := some .bullets, items := some listItems }]
        else []
      else if (lineSuffixes (splitLines trimmed)).any isOrderedLine then
        let listItems := ((splitLines trimmed).filter isOrderedLine).map orderedItemText
        if 0 < listItems.length then
          [{ type := some .ordered, items := some listItems }]
        else []
      else
        [{ type := some .paragraph, text := some trimmed }]

/-- `parseMarkdown` (markdown-parser.ts lines 13-89). -/
def parseMarkdown (markdown : Str) : List ContentItem :=
  (splitIntoBlocks markdown).flatMap parseBlock

/-- A single physical line that the block parser treats as plain paragraph
content: already trimmed, non-blank, without inner newline, and matching none
of the heading / list-marker patterns.  Vocabulary for theorem statements. -/
def plainParagraphLine (l : Str) : Prop :=
  trim l = l ∧ l ≠ [] ∧ nlChar ∉ l ∧ isHeadingLine l = false ∧
    isUnorderedLine l = false ∧ isOrderedLine l = false

instance (l : Str) : Decidable (plainParagraphLine l) := by
  unfold plainParagraphLine
  infer_instance

/-- A spacer: an empty-text paragraph item (the items the parser emits for
runs of blank lines).  Vocabulary for theorem statements. -/
def isSpacerItem (it : ContentItem) : Bool :=
  it.type = some ItemType.paragraph && it.text = some []

/-- `TextSegment` (document-manager.ts lines 65-70); `none` models an absent
key. -/
structure TextSegment where
  text : Str
  bold : Option Bool := none
  italic : Option Bool := none
  link : Option Str := none
deriving DecidableEq, Repr

/-- Attempt of the alternative `\[([^\]]+?)\]\(([^)]+?)\)` at the current
position: the lazy `[^\]]+?` takes the (non-empty) run up to the first `]`,
then `(`, the run up to the first `)`, and `)`.  Returns the matched text
(JS `match[0]`), the produced segment, and the rest of the input. -/
def matchLink : Str → Option (Str × TextSegment × Str)
  | [] => none
  | c :: t =>
    if c = '[' then
      let lab := t.takeWhile (fun x => x ≠ ']')
      if lab = [] then none
      else
        match t.dropWhile (fun x => x ≠ ']') with
        | b1 :: b2 :: t2 =>
          if b1 = ']' && b2 = '(' then
            let url := t2.takeWhile (fun x => x ≠ ')')
            if url = [] then none
            else
              match t2.dropWhile (fun x => x ≠ ')') with
              | d :: rest =>
                if d = ')' then
                  some ('[' :: lab ++ ']' :: '(' :: url ++ [')'],
                        { text := lab, link := some url }, rest)
                else none
              | [] => none
          else none
        | _ => none
    else none

/-- Attempt of the alternative `\*\*([^*]+?)\*\*` at the current position:
after `**`, the content is the (non-empty) run up to the first `*`, which
must be followed by a second `*`. -/
def matchBold : Str → Option (Str × TextSegment × Str)
  | c1 :: c2 :: t =>
    if c1 = '*' && c2 = '*' then
      let content := t.takeWhile (fun x => x ≠ '*')
      if content = [] then none
      else
        match t.dropWhile (fun x => x ≠ '*') with
        | d1 :: d2 :: rest =>
          if d1 = '*' && d2 = '*' then
            some ('*' :: '*' :: content ++ ['*', '*'],
                  { text := content, bold := some true }, rest)
          else none
        | _ => none
    else none
  | _ => none

/-- Attempt of the alternative `\*([^*]+?)\*` at the current position. -/
def matchItalic : Str → Option (Str × TextSegment × Str)
  | [] => none
  | c :: t =>
    if c = '*' then
      let content := t.takeWhile (fun x => x ≠ '*')
      if content = [] then none
      else
        match t.dropWhile (fun x => x ≠ '*') with
        | d :: rest =>
          if d = '*' then
            some ('*' :: content ++ ['*'],
                  { text := content, italic := some true }, rest)
          else none
        | [] => none
    else none

/-- One attempt of the full alternation (document-manager.ts line 81) at the
current position; alternatives are tried in source order: link, bold,
italic. -/
def matchAt (x : Str) : Option (Str × TextSegment × Str) :=
  match matchLink x with
  | some r => some r
  | none =>
    match matchBold x with
    | some r => some r
    | none => matchItalic x

/-- `regex.exec` step: leftmost position where the alternation matches.
Returns the plain text before the match, the matched text, the segment and
the rest. -/
def findMatch : Str → Option (Str × Str × TextSegment × Str)
  | [] => none
  | c :: cs =>
    match matchAt (c :: cs) with
    | some (m, seg, rest) => some ([], m, seg, rest)
    | none =>
      match findMatch cs with
      | some (pre, m, seg, rest) => some (c :: pre, m, seg, rest)
      | none => none

/-- The `while ((match = regex.exec(text)) !== null)` loop of
`parseMarkdownFormatting` (document-manager.ts lines 84-121), fuelled by the
input length (each match consumes at least one character, so `text.length`
fuel always suffices). -/
def scanSegments : Nat → Str → List TextSegment
  | 0, x => if x = [] then [] else [{ text := x }]
  | fuel + 1, x =>
    match findMatch x with
    | none => if x = [] then [] else [{ text := x }]
    | some (pre, _, seg, rest) =>
      (if pre = [] then [] else [{ text := pre }]) ++ seg :: scanSegments fuel rest

/-- `parseMarkdownFormatting` (document-manager.ts lines 75-125); when no
markdown is found in a non-empty string the loop itself yields the whole
text, and for an empty string the final fallback returns `[{ text }]`. -/
def parseMarkdownFormatting (text : Str) : List TextSegment :=
  let segments := scanSegments text.length text
  if 0 < segments.length then segments else [{ text := text }]

/-- A segment's text with its own markers re-inserted (`**…**`, `*…*`,
`[…](…)`), the inverse reading used by the round-trip property. -/
def segMarkers (seg : TextSegment) : Str :=
  match seg.link with
  | some url => '[' :: seg.text ++ ']' :: '(' :: url ++ [')']
  | none =>
    if seg.bold = some true then '*' :: '*' :: seg.text ++ ['*', '*']
    else if seg.italic = some true then '*' :: seg.text ++ ['*']
    else seg.text

/-- Concatenation of all segments' text with markers re-inserted. -/
def segsJoin (segs : List TextSegment) : Str := (segs.map segMarkers).flatten

/-- `MarkdownElementStyle` (types.ts); `none` models an absent key. -/
structure MarkdownElementStyle where
  fontName : Option Str := none
  fontSize : Option Nat := none
  bold : Option Bool := none
  italic : Option Bool := none
  color : Option Str := none
  borderBottom : Option Bool := none
deriving DecidableEq, Repr

/-- `MarkdownStyles` (types.ts): one style bucket per element kind. -/
structure MarkdownStyles where
  heading1 : MarkdownElementStyle
  heading2 : MarkdownElementStyle
  heading3 : MarkdownElementStyle
  heading4 : MarkdownElementStyle
  paragraph : MarkdownElementStyle
  bullets : MarkdownElementStyle
  ordered : MarkdownElementStyle
  blockquote : MarkdownElementStyle
deriving DecidableEq, Repr

/-- `Partial<MarkdownStyles>`: a caller-supplied sheet where each key may be
absent. -/
structure PartialMarkdownStyles where
  heading1 : Option MarkdownElementStyle := none
  heading2 : Option MarkdownElementStyle := none
  heading3 : Option MarkdownElementStyle := none
  heading4 : Option MarkdownElementStyle := none
  paragraph : Option MarkdownElementStyle := none
  bullets : Option MarkdownElementStyle := none
  ordered : Option MarkdownElementStyle := none
  blockquote : Option MarkdownElementStyle := none
deriving DecidableEq, Repr

/-- The font name shared by every default bucket. -/
def timesNewRoman : Str := "Times New Roman".data

/-- `DEFAULT_MARKDOWN_STYLES` (document-manager.ts lines 21-63). -/
def DEFAULT_MARKDOWN_STYLES : MarkdownStyles where
  heading1 := { fontName := some timesNewRoman, fontSize := some 24,
                bold := some true, borderBottom := some true }
  heading2 := { fontName := some timesNewRoman, fontSize := some 18,
                bold := some true, borderBottom := some true }
  heading3 := { fontName := some timesNewRoman, fontSize := some 14,
                bold := some true, borderBottom := some false }
  heading4 := { fontName := some timesNewRoman, fontSize := some 12,
                bold := some true, borderBottom := some false }
  paragraph := { fontName := some timesNewRoman, fontSize := some 12 }
  bullets := { fontName := some timesNewRoman, fontSize := some 12 }
  ordered := { fontName := some timesNewRoman, fontSize := some 12 }
  blockquote := { fontName := some timesNewRoman, fontSize := some 12,
                  italic := some true }

/-- `{...DEFAULT_MARKDOWN_STYLES, ...styles}` (document-manager.ts
lines 651-654): per-key replacement, a supplied key replaces the whole
bucket. -/
def mergeMarkdownStyles (styles : PartialMarkdownStyles) : MarkdownStyles where
  heading1 := styles.heading1.getD DEFAULT_MARKDOWN_STYLES.heading1
  heading2 := styles.heading2.getD DEFAULT_MARKDOWN_STYLES.heading2
  heading3 := styles.heading3.getD DEFAULT_MARKDOWN_STYLES.heading3
  heading4 := styles.heading4.getD DEFAULT_MARKDOWN_STYLES.heading4
  paragraph := styles.paragraph.getD DEFAULT_MARKDOWN_STYLES.paragraph
  bullets := styles.bullets.getD DEFAULT_MARKDOWN_STYLES.bullets
  ordered := styles.ordered.getD DEFAULT_MARKDOWN_STYLES.ordered
  blockquote := styles.blockquote.getD DEFAULT_MARKDOWN_STYLES.blockquote

/-- Style bucket selection of `applyStylesToContent` (document-manager.ts
lines 671-696): heading levels 1-4 pick their bucket (`item.format?.level
|| 1` - a missing or zero level counts as 1), levels above 4 pick none;
an italic paragraph picks the blockquote bucket; bullets and ordered pick
theirs. -/
def resolveBucket (styles : MarkdownStyles) (item : ContentItem) :
    Option MarkdownElementStyle :=
  match item.type.getD .paragraph with
  | .heading =>
    let level :=
      match item.format.bind Format.level with
      | some l => if l = 0 then 1 else l
      | none => 1
    if level = 1 then some styles.heading1
    else if level = 2 then some styles.heading2
    else if level = 3 then some styles.heading3
    else if level = 4 then some styles.heading4
    else none
  | .paragraph =>
    if item.format.bind Format.italic = some true then some styles.blockquote
    else some styles.paragraph
  | .bullets => some styles.bullets
  | .ordered => some styles.ordered

/-- `{...elementStyle, ...item.format}` (document-manager.ts lines 700-706):
shallow merge into a format record, a key of `item.format` winning over the
bucket's; `level` exists only on the item side. -/
def mergeFormat (es : MarkdownElementStyle) (fmt : Option Format) : Format :=
  match fmt with
  | none =>
    { fontName := es.fontName, fontSize := es.fontSize, bold := es.bold,
      italic := es.italic, color := es.color, level := none,
      borderBottom := es.borderBottom }
  | some f =>
    { fontName := f.fontName.or es.fontName,
      fontSize := f.fontSize.or es.fontSize,
      bold := f.bold.or es.bold,
      italic := f.italic.or es.italic,
      color := f.color.or es.color,
      level := f.level,
      borderBottom := f.borderBottom.or es.borderBottom }

/-- `applyStylesToContent` (document-manager.ts lines 666-711). -/
def applyStylesToContent (content : List ContentItem) (styles : MarkdownStyles) :
    List ContentItem :=
  content.map fun item =>
    match resolveBucket styles item with
    | some es => { item with format := some (mergeFormat es item.format) }
    | none => item

/-- The `format` parameter of `addParagraph` (document-manager.ts
lines 240-247). -/
structure ParaFormat where
  fontName : Option Str := none
  fontSize : Option Nat := none
  bold : Option Bool := none
  italic : Option Bool := none
  color : Option Str := none
  borderBottom : Option Bool := none
deriving DecidableEq, Repr

/-- The `options` parameter of `addHeading` (document-manager.ts
lines 336-343). -/
structure HeadingOptions where
  level : Option Nat := none
  fontName : Option Str := none
  fontSize : Option Nat := none
  bold : Option Bool := none
  color : Option Str := none
  borderBottom : Option Bool := none
deriving DecidableEq, Repr

/-- The `format` parameter of `addBulletList` / `addOrderedList`
(document-manager.ts lines 414-418, 466-471). -/
structure ListFormat where
  fontName : Option Str := none
  fontSize : Option Nat := none
  color : Option Str := none
deriving DecidableEq, Repr

/-- The document elements a session accumulates (`session.children`).  The
binary docx rendering of an element is the external builder's concern; each
constructor records the inline segments and the formatting the add-operation
computed them from. -/
inductive DocxElem where
  /-- Bordered empty paragraph produced for a horizontal rule
  (document-manager.ts lines 252-270). -/
  | hruleParagraph
  /-- Empty paragraph for spacing, with its optional bottom border
  (document-manager.ts lines 273-294). -/
  | emptyParagraph (borderBottom : Bool)
  /-- Ordinary text paragraph (document-manager.ts lines 297-325). -/
  | textParagraph (segs : List TextSegment) (format : ParaFormat)
  /-- Heading paragraph (document-manager.ts lines 347-403). -/
  | headingParagraph (segs : List TextSegment) (options : HeadingOptions)
  /-- One bullet-list paragraph (document-manager.ts lines 422-454). -/
  | bulletParagraph (segs : List TextSegment) (format : ListFormat)
  /-- One ordered-list paragraph (document-manager.ts lines 475-508). -/
  | orderedParagraph (segs : List TextSegment) (format : ListFormat)
deriving DecidableEq, Repr

/-- Test of `/^[-*_]{3,}$/` (document-manager.ts line 252): three or more
characters, each drawn from `-`, `*`, `_`. -/
def isHrText (l : Str) : Bool :=
  3 ≤ l.length && l.all (fun c => c = '-' || c = '*' || c = '_')

/-- Elements `addParagraph` appends (document-manager.ts lines 237-326):
a horizontal-rule text becomes a bordered empty paragraph, empty text an
empty spacing paragraph, anything else a paragraph of parsed segments. -/
def addParagraphElems (text : Str) (format : ParaFormat) : List DocxElem :=
  if isHrText (trim text) then [.hruleParagraph]
  else if trim text = [] then [.emptyParagraph (format.borderBottom = some true)]
  else [.textParagraph (parseMarkdownFormatting text) format]

/-- Elements `addHeading` appends (document-manager.ts lines 333-404). -/
def addHeadingElems (text : Str) (options : HeadingOptions) : List DocxElem :=
  [.headingParagraph (parseMarkdownFormatting text) options]

/-- Elements `addBulletList` appends (document-manager.ts lines 411-457):
one bullet paragraph per item. -/
def addBulletListElems (items : List Str) (format : ListFormat) : List DocxElem :=
  items.map fun item => .bulletParagraph (parseMarkdownFormatting item) format

/-- Elements `addOrderedList` appends (document-manager.ts lines 464-511). -/
def addOrderedListElems (items : List Str) (format : ListFormat) : List DocxElem :=
  items.map fun item => .orderedParagraph (parseMarkdownFormatting item) format

/-- The per-field `format` projection `createDocumentFromContent` passes to
`addParagraph` (document-manager.ts lines 560-567). -/
def paraFormatOf (fmt : Option Format) : ParaFormat where
  fontName := fmt.bind Format.fontName
  fontSize := fmt.bind Format.fontSize
  bold := fmt.bind Format.bold
  italic := fmt.bind Format.italic
  color := fmt.bind Format.color
  borderBottom := fmt.bind Format.borderBottom

/-- The `options` projection `createDocumentFromContent` passes to
`addHeading` (document-manager.ts lines 573-580). -/
def headingOptionsOf (fmt : Option Format) : HeadingOptions where
  level := fmt.bind Format.level
  fontName := fmt.bind Format.fontName
  fontSize := fmt.bind Format.fontSize
  bold := fmt.bind Format.bold
  color := fmt.bind Format.color
  borderBottom := fmt.bind Format.borderBottom

/-- The `format` projection `createDocumentFromContent` passes to the list
operations (document-manager.ts lines 586-590, 596-600). -/
def listFormatOf (fmt : Option Format) : ListFormat where
  fontName := fmt.bind Format.fontName
  fontSize := fmt.bind Format.fontSize
  color := fmt.bind Format.color

/-- Elements one content item contributes in `createDocumentFromContent`'s
switch (document-manager.ts lines 553-604): a missing `type` defaults to
paragraph; a paragraph needs `text` present, a heading needs it present and
non-empty, the list kinds need a non-empty `items` array; otherwise the item
is skipped. -/
def contentItemElems (item : ContentItem) : List DocxElem :=
  match item.type.getD .paragraph with
  | .paragraph =>
    match item.text with
    | some t => addParagraphElems t (paraFormatOf item.format)
    | none => []
  | .heading =>
    match item.text with
    | some t => if t = [] then [] else addHeadingElems t (headingOptionsOf item.format)
    | none => []
  | .bullets =>
    match item.items with
    | some is => if 0 < is.length then addBulletListElems is (listFormatOf item.format) else []
    | none => []
  | .ordered =>
    match item.items with
    | some is => if 0 < is.length then addOrderedListElems is (listFormatOf item.format) else []
    | none => []

/-- All elements `createDocumentFromContent` accumulates for a content array
(document-manager.ts lines 543-608). -/
def createDocumentFromContentElems (content : List ContentItem) : List DocxElem :=
  content.flatMap contentItemElems

/-- Modelled from the spec: the spec's minimum-content validation for list
items speaks of "zero usable items after trim-and-filter"; the usable items
of an item under that reading are those whose trimmed text is non-empty. -/
def specUsableItems (item : ContentItem) : List Str :=
  ((item.items.getD []).map trim).filter (fun t => t ≠ [])

/-- `DocumentSession` (document-manager.ts lines 127-131). -/
structure DocumentSession where
  title : Option Str := none
  author : Option Str := none
  children : List DocxElem := []
deriving DecidableEq, Repr

/-- The `sessions` map of `DocumentManager` (document-manager.ts line 149),
keyed by filename. -/
def Sessions := Str → Option DocumentSession

/-- `sessions.set(filename, session)`. -/
def setSession (st : Sessions) (filename : Str) (s : DocumentSession) : Sessions :=
  fun x => if x = filename then some s else st x

/-- `sessions.delete(filename)`. -/
def deleteSession (st : Sessions) (filename : Str) : Sessions :=
  fun x => if x = filename then none else st x

/-- The error message thrown by `getSession` (document-manager.ts line 168). -/
def noSessionMsg (filename : Str) : Str :=
  "No document session found for: ".data ++ filename

/-- `getSession` (document-manager.ts lines 165-171): throws if the session
does not exist. -/
def getSession (st : Sessions) (filename : Str) : Except Str DocumentSession :=
  match st filename with
  | some s => .ok s
  | none => .error (noSessionMsg filename)

/-- `getOrCreateSession` (document-manager.ts lines 176-183): auto-creates an
empty session if absent; returns the session and the updated map. -/
def getOrCreateSession (st : Sessions) (filename : Str)
    (title author : Option Str := none) : DocumentSession × Sessions :=
  match st filename with
  | some s => (s, st)
  | none =>
    let s : DocumentSession := { title := title, author := author, children := [] }
    (s, setSession st filename s)

/-- Append freshly built elements to a (possibly auto-created) session, the
shared shape of every content-adding operation. -/
def addElemsOp (st : Sessions) (filename : Str) (elems : List DocxElem) : Sessions :=
  let (s, st') := getOrCreateSession st filename
  setSession st' filename { s with children := s.children ++ elems }

/-- `addParagraph` as a state transformer (document-manager.ts
lines 237-326): never fails, lazily creates the session. -/
def addParagraphOp (st : Sessions) (filename : Str) (text : Str)
    (format : ParaFormat) : Sessions :=
  addElemsOp st filename (addParagraphElems text format)

/-- `addHeading` as a state transformer (document-manager.ts lines 333-404). -/
def addHeadingOp (st : Sessions) (filename : Str) (text : Str)
    (options : HeadingOptions) : Sessions :=
  addElemsOp st filename (addHeadingElems text options)

/-- `addBulletList` as a state transformer (document-manager.ts
lines 411-457). -/
def addBulletListOp (st : Sessions) (filename : Str) (items : List Str)
    (format : ListFormat) : Sessions :=
  addElemsOp st filename (addBulletListElems items format)

/-- `addOrderedList` as a state transformer (document-manager.ts
lines 464-511). -/
def addOrderedListOp (st : Sessions) (filename : Str) (items : List Str)
    (format : ListFormat) : Sessions :=
  addElemsOp st filename (addOrderedListElems items format)

/-- `saveDocument` (document-manager.ts lines 516-522): looks the session up
(throwing if absent), builds and writes the binary file (external), and
leaves the session map unchanged. -/
def saveDocumentOp (st : Sessions) (filename : Str) : Except Str Sessions :=
  match getSession st filename with
  | .ok _ => .ok st
  | .error e => .error e

/-- `closeDocument` (document-manager.ts lines 527-530): save, then remove
the session; a save failure propagates. -/
def closeDocumentOp (st : Sessions) (filename : Str) : Except Str Sessions :=
  match saveDocumentOp st filename with
  | .ok st' => .ok (deleteSession st' filename)
  | .error e => .error e

/-! ## Properties of the inline formatter -/

theorem matchLink_consume {x m rest : Str} {seg : TextSegment}
    (h : matchLink x = some (m, seg, rest)) :
    m ++ rest = x ∧ segMarkers seg = m := by
  cases x with
  | nil => simp [matchLink] at h
  | cons c t =>
    simp only [matchLink] at h
    split at h
    case isFalse => simp at h
    case isTrue hc =>
      split at h
      case isTrue => simp at h
      case isFalse hlab =>
        split at h
        case h_2 => simp at h
        case h_1 b1 b2 t2 hdw =>
          split at h
          case isFalse => simp at h
          case isTrue hb =>
            rw [Bool.and_eq_true, decide_eq_true_eq, decide_eq_true_eq] at hb
            obtain ⟨hb1, hb2⟩ := hb
            split at h
            case isTrue => simp at h
            case isFalse hurl =>
              split at h
              case h_2 => simp at h
              case h_1 d r2 hdw2 =>
                split at h
                case isFalse => simp at h
                case isTrue hd =>
                  simp only [Option.some.injEq, Prod.mk.injEq] at h
                  obtain ⟨hm, hseg, hrest⟩ := h
                  subst hc hb1 hb2 hd hm hrest
                  have h1 := List.takeWhile_append_dropWhile
                    (p := fun x => decide (x ≠ ']')) (l := t)
                  have h2 := List.takeWhile_append_dropWhile
                    (p := fun x => decide (x ≠ ')')) (l := t2)
                  rw [hdw] at h1
                  rw [hdw2] at h2
                  constructor
                  · simp only [List.cons_append, List.append_assoc,
                      List.nil_append, List.singleton_append]
                    rw [h2, h1]
                  · rw [← hseg]
                    rfl

theorem matchBold_consume {x m rest : Str} {seg : TextSegment}
    (h : matchBold x = some (m, seg, rest)) :
    m ++ rest = x ∧ segMarkers seg = m := by
  match x with
  | [] => simp [matchBold] at h
  | [c] => simp [matchBold] at h
  | c1 :: c2 :: t =>
    simp only [matchBold] at h
    split at h
    case isFalse => simp at h
    case isTrue hcc =>
      rw [Bool.and_eq_true, decide_eq_true_eq, decide_eq_true_eq] at hcc
      obtain ⟨hc1, hc2⟩ := hcc
      split at h
      case isTrue => simp at h
      case isFalse hct =>
        split at h
        case h_2 => simp at h
        case h_1 d1 d2 r2 hdw =>
          split at h
          case isFalse => simp at h
          case isTrue hdd =>
            rw [Bool.and_eq_true, decide_eq_true_eq, decide_eq_true_eq] at hdd
            obtain ⟨hd1, hd2⟩ := hdd
            simp only [Option.some.injEq, Prod.mk.injEq] at h
            obtain ⟨hm, hseg, hrest⟩ := h
            subst hc1 hc2 hd1 hd2 hm hrest
            have h1 := List.takeWhile_append_dropWhile
              (p := fun x => decide (x ≠ '*')) (l := t)
            rw [hdw] at h1
            constructor
            · simp only [List.cons_append, List.append_assoc,
                List.nil_append, List.singleton_append]
              rw [h1]
            · rw [← hseg]
              rfl

theorem matchItalic_consume {x m rest : Str} {seg : TextSegment}
    (h : matchItalic x = some (m, seg, rest)) :
    m ++ rest = x ∧ segMarkers seg = m := by
  cases x with
  | nil => simp [matchItalic] at h
  | cons c t =>
    simp only [matchItalic] at h
    split at h
    case isFalse => simp at h
    case isTrue hc =>
      split at h
      case isTrue => simp at h
      case isFalse hct =>
        split at h
        case h_2 => simp at h
        case h_1 d r1 hdw =>
          split at h
          case isFalse => simp at h
          case isTrue hd =>
            simp only [Option.some.injEq, Prod.mk.injEq] at h
            obtain ⟨hm, hseg, hrest⟩ := h
            subst hc hd hm hrest
            have h1 := List.takeWhile_append_dropWhile
              (p := fun x => decide (x ≠ '*')) (l := t)
            rw [hdw] at h1
            constructor
            · simp only [List.cons_append, List.append_assoc,
                List.nil_append, List.singleton_append]
              rw [h1]
            · rw [← hseg]
              rfl

theorem matchAt_consume {x m rest : Str} {seg : TextSegment}
    (h : matchAt x = some (m, seg, rest)) :
    m ++ rest = x ∧ segMarkers seg = m := by
  simp only [matchAt] at h
  split at h
  · rename_i hl
    cases h
    exact matchLink_consume hl
  · split at h
    · rename_i hb
      cases h
      exact matchBold_consume hb
    · exact matchItalic_consume h

theorem findMatch_consume :
    ∀ {x pre m rest : Str} {seg : TextSegment},
      findMatch x = some (pre, m, seg, rest) →
      pre ++ m ++ rest = x ∧ segMarkers seg = m := by
  intro x
  induction x with
  | nil => intro pre m rest seg h; simp [findMatch] at h
  | cons c cs ih =>
    intro pre m rest seg h
    simp only [findMatch] at h
    split at h
    case h_1 m' seg' rest' hma =>
      simp only [Option.some.injEq, Prod.mk.injEq] at h
      obtain ⟨hpre, hm, hseg, hrest⟩ := h
      subst hpre hm hseg hrest
      obtain ⟨h1, h2⟩ := matchAt_consume hma
      exact ⟨by simpa using h1, h2⟩
    case h_2 hma =>
      split at h
      case h_1 pre' m' seg' rest' hf =>
        simp only [Option.some.injEq, Prod.mk.injEq] at h
        obtain ⟨hpre, hm, hseg, hrest⟩ := h
        subst hpre hm hseg hrest
        obtain ⟨h1, h2⟩ := ih hf
        refine ⟨?_, h2⟩
        simp only [List.cons_append, List.append_assoc] at h1 ⊢
        rw [h1]
      case h_2 => simp at h

theorem segsJoin_append (a b : List TextSegment) :
    segsJoin (a ++ b) = segsJoin a ++ segsJoin b := by
  simp [segsJoin]

theorem segsJoin_plain (x : Str) : segsJoin [{ text := x }] = x := by
  simp [segsJoin, segMarkers]

theorem segsJoin_cons (s : TextSegment) (l : List TextSegment) :
    segsJoin (s :: l) = segMarkers s ++ segsJoin l := by
  simp [segsJoin]

theorem segsJoin_scanSegments : ∀ (fuel : Nat) (x : Str),
    segsJoin (scanSegments fuel x) = x := by
  intro fuel
  induction fuel with
  | zero =>
    intro x
    by_cases hx : x = [] <;> simp [scanSegments, hx, segsJoin, segMarkers]
  | succ n ih =>
    intro x
    simp only [scanSegments]
    split
    · rename_i hf
      by_cases hx : x = [] <;> simp [hx, segsJoin, segMarkers]
    · rename_i pre m seg rest hf
      obtain ⟨h1, h2⟩ := findMatch_consume hf
      by_cases hpre : pre = []
      · subst hpre
        rw [if_pos rfl, List.nil_append, segsJoin_cons, h2, ih rest]
        simpa using h1
      · rw [if_neg hpre, List.cons_append, List.nil_append, segsJoin_cons,
          segsJoin_cons, h2, ih rest, segMarkers]
        simp only [List.append_assoc] at h1 ⊢
        exact h1

/-- C3: for every line (in particular every line composed of well-formed,
non-overlapping `**bold**` / `*italic*` / `[text](url)` spans interspersed
with plain text), concatenating the texts of the segments returned by
`parseMarkdownFormatting` with each segment's own markers re-inserted
reproduces the input exactly; and a line on which the formatting regex finds
no match yields exactly one segment whose text is the whole line. -/
theorem inline_roundTrip :
    (∀ s : Str, segsJoin (parseMarkdownFormatting s) = s) ∧
    (∀ s : Str, findMatch s = none →
      parseMarkdownFormatting s = [{ text := s }]) := by
  constructor
  · intro s
    simp only [parseMarkdownFormatting]
    split
    · exact segsJoin_scanSegments s.length s
    · rename_i hlen
      have h0 : scanSegments s.length s = [] := by
        cases hs : scanSegments s.length s with
        | nil => rfl
        | cons a l => rw [hs] at hlen; simp at hlen
      have := segsJoin_scanSegments s.length s
      rw [h0] at this
      rw [segsJoin_plain, ← this]
  · intro s hs
    cases s with
    | nil => rfl
    | cons c t =>
      simp only [parseMarkdownFormatting, scanSegments, List.length_cons, hs]
      simp

/-- Witness for C3 at the concrete marker-free line `hi`. -/
theorem inline_roundTrip_witness :
    segsJoin (parseMarkdownFormatting ['h', 'i']) = ['h', 'i'] ∧
    parseMarkdownFormatting ['h', 'i'] = [{ text := ['h', 'i'] }] :=
  ⟨inline_roundTrip.1 ['h', 'i'], inline_roundTrip.2 ['h', 'i'] (by decide)⟩

/-- C2: `parseMarkdown` is a total, deterministic, side-effect-free function:
it is defined (returns a `ContentItem` list) on every input string, and two
calls on structurally equal input return structurally equal output. -/
theorem parseMarkdown_total_deterministic :
    (∀ s : Str, ∃ items : List ContentItem, parseMarkdown s = items) ∧
    (∀ s t : Str, s = t → parseMarkdown s = parseMarkdown t) :=
  ⟨fun s => ⟨parseMarkdown s, rfl⟩, fun _ _ h => by rw [h]⟩

/-- Witness for C2 at the concrete input `A`. -/
theorem parseMarkdown_total_deterministic_witness :
    (∃ items : List ContentItem, parseMarkdown ['A'] = items) ∧
    parseMarkdown ['A'] = parseMarkdown ['A'] :=
  ⟨parseMarkdown_total_deterministic.1 ['A'],
   parseMarkdown_total_deterministic.2 ['A'] ['A'] rfl⟩

/-! ## Helper lemmas about trimming and line splitting -/

theorem head_not_ws {c : Char} {t : Str} (h : trimLeft (c :: t) = c :: t) :
    isWs c = false := by
  cases hc : isWs c with
  | false => rfl
  | true =>
    exfalso
    rw [trimLeft, List.dropWhile_cons, hc] at h
    have hle : (List.dropWhile isWs t).length ≤ t.length :=
      (List.dropWhile_suffix isWs).sublist.length_le
    have := congrArg List.length h
    simp at this
    omega

theorem trim_eq_self_parts {l : Str} (h : trim l = l) :
    trimLeft l = l ∧ trimRight l = l := by
  have hsub : List.Sublist (List.dropWhile isWs l.reverse) l.reverse :=
    (List.dropWhile_suffix isWs).sublist
  have hlen1 : (trimRight l).length ≤ l.length := by
    simpa [trimRight] using hsub.length_le
  have hsub2 : List.Sublist (List.dropWhile isWs (trimRight l)) (trimRight l) :=
    (List.dropWhile_suffix isWs).sublist
  have hlen2 : (trim l).length ≤ (trimRight l).length := by
    simpa [trim, trimLeft] using hsub2.length_le
  have hlen3 : l.length ≤ (trimRight l).length := by
    rw [← congrArg List.length h]
    exact hlen2
  have hR : trimRight l = l := by
    have hdw : List.dropWhile isWs l.reverse = l.reverse := by
      refine hsub.eq_of_length ?_
      have : (trimRight l).length = l.length := le_antisymm hlen1 hlen3
      simpa [trimRight] using this
    rw [trimRight, hdw, List.reverse_reverse]
  refine ⟨?_, hR⟩
  rw [trim, hR] at h
  exact h

theorem trimLeft_append {a : Str} (ha : trimLeft a = a) (hane : a ≠ [])
    (r : Str) : trimLeft (a ++ r) = a ++ r := by
  cases a with
  | nil => exact absurd rfl hane
  | cons c t =>
    have hc := head_not_ws ha
    rw [List.cons_append, trimLeft, List.dropWhile_cons, hc]
    simp

theorem trimRight_append {b : Str} (hb : trimRight b = b) (hbne : b ≠ [])
    (l : Str) : trimRight (l ++ b) = l ++ b := by
  obtain ⟨c, t, hrev⟩ : ∃ c t, b.reverse = c :: t := by
    cases hr : b.reverse with
    | nil =>
      exfalso
      exact hbne (by simpa using congrArg List.reverse hr)
    | cons c t => exact ⟨c, t, rfl⟩
  have hbL : trimLeft b.reverse = b.reverse := by
    have := congrArg List.reverse hb
    rw [trimRight, List.reverse_reverse] at this
    rw [trimLeft, this]
  have hc : isWs c = false := head_not_ws (by rwa [hrev] at hbL)
  rw [trimRight, List.reverse_append, hrev, List.cons_append,
    List.dropWhile_cons, hc]
  simp only [Bool.false_eq_true, if_false, ← List.cons_append, ← hrev,
    ← List.reverse_append, List.reverse_reverse]

theorem trim_sandwich {a b : Str} (ha : trim a = a) (hane : a ≠ [])
    (hb : trim b = b) (hbne : b ≠ []) (mid : Str) :
    trim (a ++ mid ++ b) = a ++ mid ++ b := by
  obtain ⟨haL, _⟩ := trim_eq_self_parts ha
  obtain ⟨_, hbR⟩ := trim_eq_self_parts hb
  rw [trim, List.append_assoc, ← List.append_assoc,
    trimRight_append hbR hbne, List.append_assoc,
    trimLeft_append haL hane, ← List.append_assoc]

theorem trim_ne_nil_of {l : Str} (h : trim l = l) (hne : l ≠ []) :
    trim l ≠ [] := by rw [h]; exact hne

theorem splitLines_no_nl {l : Str} (h : nlChar ∉ l) : splitLines l = [l] := by
  induction l with
  | nil => rfl
  | cons c cs ih =>
    have hc : c ≠ nlChar := fun hc => h (hc ▸ List.mem_cons_self c cs)
    have hcs : nlChar ∉ cs := fun hm => h (List.mem_cons_of_mem c hm)
    rw [splitLines, if_neg hc, ih hcs]

theorem splitLines_append_cons {a : Str} (h : nlChar ∉ a) (rest : Str) :
    splitLines (a ++ nlChar :: rest) = a :: splitLines rest := by
  induction a with
  | nil =>
    rw [List.nil_append, splitLines, if_pos rfl]
  | cons c cs ih =>
    have hc : c ≠ nlChar := fun hc => h (hc ▸ List.mem_cons_self c cs)
    have hcs : nlChar ∉ cs := fun hm => h (List.mem_cons_of_mem c hm)
    rw [List.cons_append, splitLines, if_neg hc, ih hcs]

theorem splitLines_replicate_nl (n : Nat) (b : Str) :
    splitLines (List.replicate n nlChar ++ b) =
      List.replicate n [] ++ splitLines b := by
  induction n with
  | zero => simp
  | succ k ih =>
    rw [List.replicate_succ, List.cons_append, splitLines, if_pos rfl, ih,
      List.replicate_succ, List.cons_append]

theorem joinLines_cons_cons (l l2 : Str) (ls : List Str) :
    joinLines (l :: l2 :: ls) = l ++ nlChar :: joinLines (l2 :: ls) := rfl

theorem joinLines_ne_nil {L : List Str} (hL : L ≠ [])
    (h : ∀ l ∈ L, l ≠ []) : joinLines L ≠ [] := by
  cases L with
  | nil => exact absurd rfl hL
  | cons l ls =>
    cases ls with
    | nil => exact h l (List.mem_cons_self ..)
    | cons l2 ls2 =>
      rw [joinLines_cons_cons]
      cases hl : l with
      | nil => exact absurd hl (h l (List.mem_cons_self ..))
      | cons c t => simp

theorem splitLines_joinLines {L : List Str} (hL : L ≠ [])
    (h : ∀ l ∈ L, nlChar ∉ l) : splitLines (joinLines L) = L := by
  induction L with
  | nil => exact absurd rfl hL
  | cons l ls ih =>
    cases ls with
    | nil =>
      rw [joinLines, splitLines_no_nl (h l (List.mem_cons_self ..))]
    | cons l2 ls2 =>
      rw [joinLines_cons_cons, splitLines_append_cons (h l (List.mem_cons_self ..)),
        ih (by simp) (fun x hx => h x (List.mem_cons_of_mem l hx))]

/-! ## Helper lemmas about line classification and the splitter loop -/

theorem trim_nil : trim [] = [] := rfl

theorem isList_ne_nil {l : Str} (h : isListItemLine l = true) : l ≠ [] := by
  intro hl
  rw [hl] at h
  simp [isListItemLine, isUnorderedLine, isOrderedLine] at h

theorem isHeading_ne_nil {l : Str} (h : isHeadingLine l = true) : l ≠ [] := by
  intro hl
  rw [hl] at h
  simp [isHeadingLine, countHashes] at h

theorem isList_head_ne_hash {c : Char} {t : Str}
    (h : isListItemLine (c :: t) = true) : c ≠ '#' := by
  rw [isListItemLine, Bool.or_eq_true] at h
  cases h with
  | inl hu =>
    cases t with
    | nil => simp [isUnorderedLine] at hu
    | cons d t' =>
      rw [isUnorderedLine, Bool.and_eq_true, Bool.or_eq_true,
        decide_eq_true_eq, decide_eq_true_eq] at hu
      rcases hu.1 with hc | hc <;> subst hc <;> decide
  | inr ho =>
    rw [isOrderedLine] at ho
    rw [Bool.and_eq_true, decide_eq_true_eq] at ho
    cases hd : c.isDigit with
    | false =>
      exfalso
      rw [List.takeWhile_cons, hd] at ho
      simp at ho
    | true =>
      intro hc
      rw [hc] at hd
      simp [Char.isDigit] at hd

theorem isList_not_heading {l : Str} (h : isListItemLine l = true) :
    isHeadingLine l = false := by
  cases l with
  | nil => exact absurd rfl (isList_ne_nil h)
  | cons c t =>
    have hc : c ≠ '#' := isList_head_ne_hash h
    have hcount : countHashes (c :: t) = 0 := by
      rw [countHashes, List.takeWhile_cons]
      simp [hc]
    rw [isHeadingLine, hcount]
    simp

theorem splitStep_blank_nil (B : List Str) (k : Nat) {line : Str}
    (h : trim line = []) :
    splitStep ⟨B, [], false, k⟩ line = ⟨B, [], false, k + 1⟩ := by
  simp [splitStep, h, trim_nil]

theorem splitStep_blank_push (B : List Str) (k : Nat) {c line : Str}
    (h : trim line = []) (hc : trim c ≠ []) :
    splitStep ⟨B, c, false, k⟩ line = ⟨B ++ [c], [], false, k + 1⟩ := by
  simp [splitStep, h, hc]

theorem splitStep_plain (B : List Str) (k : Nat) {line : Str}
    (ht : trim line = line) (hne : line ≠ [])
    (hh : isHeadingLine line = false) (hl : isListItemLine line = false) :
    splitStep ⟨B, [], false, k⟩ line =
      ⟨B ++ List.replicate (k - 1) [], line, false, 0⟩ := by
  cases k with
  | zero => simp [splitStep, ht, hne, hh, hl, appendLine, trim_nil]
  | succ k' => simp [splitStep, ht, hne, hh, hl, appendLine, trim_nil]

theorem splitStep_plain_merge (B : List Str) {c line : Str}
    (ht : trim line = line) (hne : line ≠ [])
    (hh : isHeadingLine line = false) (hl : isListItemLine line = false)
    (hcne : c ≠ []) :
    splitStep ⟨B, c, false, 0⟩ line = ⟨B, c ++ nlChar :: line, false, 0⟩ := by
  simp [splitStep, ht, hne, hh, hl, appendLine, hcne]

theorem splitStep_heading (B : List Str) (k : Nat) {line : Str}
    (ht : trim line = line) (hh : isHeadingLine line = true) :
    splitStep ⟨B, [], false, k⟩ line =
      ⟨(B ++ List.replicate (k - 1) []) ++ [line], [], false, 0⟩ := by
  have hne : line ≠ [] := isHeading_ne_nil hh
  cases k with
  | zero => simp [splitStep, ht, hne, hh, trim_nil]
  | succ k' => simp [splitStep, ht, hne, hh, trim_nil]

theorem splitStep_list_start (B : List Str) (k : Nat) {line : Str}
    (ht : trim line = line) (hl : isListItemLine line = true) :
    splitStep ⟨B, [], false, k⟩ line =
      ⟨B ++ List.replicate (k - 1) [], line, true, 0⟩ := by
  have hne : line ≠ [] := isList_ne_nil hl
  have hh : isHeadingLine line = false := isList_not_heading hl
  cases k with
  | zero => simp [splitStep, ht, hne, hh, hl, appendLine, trim_nil]
  | succ k' => simp [splitStep, ht, hne, hh, hl, appendLine, trim_nil]

theorem splitStep_list_cont (B : List Str) {c line : Str}
    (ht : trim line = line) (hl : isListItemLine line = true) (hcne : c ≠ []) :
    splitStep ⟨B, c, true, 0⟩ line = ⟨B, c ++ nlChar :: line, true, 0⟩ := by
  have hne : line ≠ [] := isList_ne_nil hl
  have hh : isHeadingLine line = false := isList_not_heading hl
  simp [splitStep, ht, hne, hh, hl, appendLine, hcne]

theorem foldl_blanks (n : Nat) (B : List Str) (k : Nat) :
    (List.replicate n ([] : Str)).foldl splitStep ⟨B, [], false, k⟩ =
      ⟨B, [], false, k + n⟩ := by
  induction n generalizing k with
  | zero => simp
  | succ m ih =>
    rw [List.replicate_succ, List.foldl_cons, splitStep_blank_nil B k trim_nil,
      ih (k + 1)]
    have : k + 1 + m = k + (m + 1) := by omega
    rw [this]

theorem foldl_list_cont (L : List Str) :
    ∀ (c : Str), c ≠ [] →
      (∀ l ∈ L, trim l = l ∧ isListItemLine l = true) →
      L.foldl splitStep ⟨[], c, true, 0⟩ = ⟨[], joinLines (c :: L), true, 0⟩ := by
  induction L with
  | nil => intro c _ _; rw [List.foldl_nil, joinLines]
  | cons l ls ih =>
    intro c hc h
    obtain ⟨hl1, hl2⟩ := h l (List.mem_cons_self ..)
    rw [List.foldl_cons, splitStep_list_cont [] hl1 hl2 hc,
      ih (c ++ nlChar :: l) (by simp)
        (fun x hx => h x (List.mem_cons_of_mem l hx))]
    have hjoin : joinLines ((c ++ nlChar :: l) :: ls) = joinLines (c :: l :: ls) := by
      cases ls with
      | nil => rw [joinLines, joinLines_cons_cons, joinLines]
      | cons x xs =>
        rw [joinLines_cons_cons, joinLines_cons_cons, joinLines_cons_cons]
        simp
    rw [hjoin]

theorem trim_joinLines {L : List Str} (hL : L ≠ [])
    (h : ∀ l ∈ L, trim l = l ∧ l ≠ []) :
    trim (joinLines L) = joinLines L := by
  induction L with
  | nil => exact absurd rfl hL
  | cons l ls ih =>
    cases ls with
    | nil => exact (h l (List.mem_cons_self ..)).1
    | cons l2 ls2 =>
      obtain ⟨hl1, hl2⟩ := h l (List.mem_cons_self ..)
      have hb := ih (by simp) (fun x hx => h x (List.mem_cons_of_mem l hx))
      have hbne : joinLines (l2 :: ls2) ≠ [] :=
        joinLines_ne_nil (by simp)
          (fun x hx => (h x (List.mem_cons_of_mem l hx)).2)
      rw [joinLines_cons_cons]
      have := trim_sandwich hl1 hl2 hb hbne [nlChar]
      simpa using this

theorem matchHeadingAt_none {l : Str} (h : isHeadingLine l = false) :
    matchHeadingAt l = none := by
  rw [matchHeadingAt]
  by_cases hk : (1 ≤ countHashes l && countHashes l ≤ 6) = true
  · rw [if_pos hk]
    rw [isHeadingLine] at h
    cases hr : l.drop (countHashes l) with
    | nil => simp
    | cons c cs =>
      have hcw : isWs c = false := by
        rw [hr] at h
        simpa [hk] using h
      simp [List.takeWhile_cons, hcw]
  · rw [if_neg hk]

theorem parseBlock_nil :
    parseBlock [] = [{ type := some ItemType.paragraph, text := some [] }] := rfl

theorem flatMap_replicate_spacer (m : Nat) :
    (List.replicate m ([] : Str)).flatMap parseBlock =
      List.replicate m { type := some ItemType.paragraph, text := some [] } := by
  induction m with
  | zero => rfl
  | succ k ih =>
    rw [List.replicate_succ, List.flatMap_cons, parseBlock_nil, ih,
      List.replicate_succ]
    rfl

theorem lineSuffixes_single (l : Str) : lineSuffixes [l] = [l] := rfl

theorem parseBlock_plain {p : Str} (htrim : trim p = p) (hne : p ≠ [])
    (hnl : nlChar ∉ p) (hh : isHeadingLine p = false)
    (hu : isUnorderedLine p = false) (ho : isOrderedLine p = false) :
    parseBlock p = [{ type := some ItemType.paragraph, text := some p }] := by
  rw [parseBlock]
  simp only [htrim, blockHeadingMatch, splitLines_no_nl hnl, lineSuffixes_single]
  rw [if_neg hne]
  rw [List.findSome?_cons, matchHeadingAt_none hh, List.findSome?_nil]
  simp [hu, ho]

/-! ## Helper lemmas for heading blocks -/

theorem countHashes_hashes (k : Nat) (T : Str) :
    countHashes (List.replicate k '#' ++ ' ' :: T) = k := by
  induction k with
  | zero => simp [countHashes, List.takeWhile_cons]
  | succ m ih =>
    rw [List.replicate_succ, List.cons_append, countHashes, List.takeWhile_cons]
    simp only [decide_True]
    rw [countHashes] at ih
    simp [ih]

theorem headingLine_no_nl {k : Nat} {T : Str} (hT : nlChar ∉ T) :
    nlChar ∉ List.replicate k '#' ++ ' ' :: T := by
  intro hmem
  rcases List.mem_append.mp hmem with hm | hm
  · have := List.eq_of_mem_replicate hm
    simp [nlChar] at this
  · rcases List.mem_cons.mp hm with hm2 | hm2
    · simp [nlChar] at hm2
    · exact hT hm2

theorem trim_headingLine {k : Nat} {T : Str} (h1 : 1 ≤ k)
    (hTtrim : trim T = T) (hTne : T ≠ []) :
    trim (List.replicate k '#' ++ ' ' :: T) =
      List.replicate k '#' ++ ' ' :: T := by
  obtain ⟨_, hTR⟩ := trim_eq_self_parts hTtrim
  have hhashL : trimLeft (List.replicate k '#') = List.replicate k '#' := by
    cases k with
    | zero => rfl
    | succ m =>
      rw [List.replicate_succ, trimLeft, List.dropWhile_cons]
      simp [isWs, nlChar, tabChar, vtChar, ffChar, crChar]
  have hshape : List.replicate k '#' ++ ' ' :: T =
      (List.replicate k '#' ++ [' ']) ++ T := by simp
  rw [trim, hshape, trimRight_append hTR hTne, ← hshape,
    trimLeft_append hhashL (by
      cases k with
      | zero => omega
      | succ m => simp [List.replicate_succ]) (' ' :: T)]

theorem takeWhile_ne_nl {x : Str} (h : nlChar ∉ x) :
    x.takeWhile (fun c => c ≠ nlChar) = x := by
  induction x with
  | nil => rfl
  | cons c cs ih =>
    have hc : c ≠ nlChar := fun hc => h (hc ▸ List.mem_cons_self c cs)
    have hcs : nlChar ∉ cs := fun hm => h (List.mem_cons_of_mem c hm)
    rw [List.takeWhile_cons, if_pos (by simpa using hc), ih hcs]

theorem matchHeadingAt_heading {k : Nat} {T : Str} (h1 : 1 ≤ k) (h2 : k ≤ 6)
    (hTtrim : trim T = T) (hTne : T ≠ []) (hTnl : nlChar ∉ T) :
    matchHeadingAt (List.replicate k '#' ++ ' ' :: T) = some (k, T) := by
  obtain ⟨hTL, _⟩ := trim_eq_self_parts hTtrim
  obtain ⟨c, t, rfl⟩ : ∃ c t, T = c :: t := by
    cases T with
    | nil => exact absurd rfl hTne
    | cons c t => exact ⟨c, t, rfl⟩
  have hcw : isWs c = false := head_not_ws hTL
  rw [matchHeadingAt, countHashes_hashes]
  rw [if_pos (by simp [h1, h2])]
  have hdrop : (List.replicate k '#' ++ ' ' :: c :: t).drop k = ' ' :: c :: t := by
    have := List.drop_left (List.replicate k '#') (' ' :: c :: t)
    rwa [List.length_replicate] at this
  rw [hdrop]
  have hsw : isWs ' ' = true := by decide
  have hcn : c ≠ nlChar := by
    intro hc
    rw [hc] at hcw
    exact absurd hcw (by decide)
  have htnl : nlChar ∉ t := fun hm => hTnl (List.mem_cons_of_mem c hm)
  simp [List.takeWhile_cons, List.dropWhile_cons, hsw, hcw, hcn,
    takeWhile_ne_nl htnl]
  exact fun x hx hxeq => htnl (hxeq ▸ hx)

theorem splitIntoBlocks_single {line : Str} (htrim : trim line = line)
    (hne : line ≠ []) (hnl : nlChar ∉ line) :
    splitIntoBlocks line = [line] := by
  rw [splitIntoBlocks, splitLines_no_nl hnl, List.foldl_cons, List.foldl_nil]
  by_cases hh : isHeadingLine line = true
  · rw [splitStep_heading [] 0 htrim hh]
    simp [trim_nil]
  · have hh' : isHeadingLine line = false := by
      cases hval : isHeadingLine line with
      | false => rfl
      | true => exact absurd hval hh
    by_cases hl : isListItemLine line = true
    · rw [splitStep_list_start [] 0 htrim hl]
      simp [htrim, hne]
    · have hl' : isListItemLine line = false := by
        cases hval : isListItemLine line with
        | false => rfl
        | true => exact absurd hval hl
      rw [splitStep_plain [] 0 htrim hne hh' hl']
      simp [htrim, hne]

/-- C5: for every level 1..6 and every non-empty single-line trimmed text T,
parsing a line of `level` hash marks, a space and T yields exactly one
heading item with text T, `format.level = level` and
`format.borderBottom = (level <= 2)`. -/
theorem parseMarkdown_heading_level_border (k : Nat) (T : Str)
    (h1 : 1 ≤ k) (h2 : k ≤ 6) (hTne : T ≠ []) (hTnl : nlChar ∉ T)
    (hTtrim : trim T = T) :
    parseMarkdown (List.replicate k '#' ++ ' ' :: T) =
      [{ type := some ItemType.heading, text := some T,
         format := some { level := some k,
                          borderBottom := some (decide (k ≤ 2)) } }] := by
  have hnl := headingLine_no_nl (k := k) hTnl
  have htrim := trim_headingLine h1 hTtrim hTne
  have hne : List.replicate k '#' ++ ' ' :: T ≠ [] := by simp
  rw [parseMarkdown, splitIntoBlocks_single htrim hne hnl]
  rw [List.flatMap_cons, List.flatMap_nil, List.append_nil]
  rw [parseBlock]
  simp only [htrim, blockHeadingMatch, splitLines_no_nl hnl, lineSuffixes_single]
  rw [if_neg hne, List.findSome?_cons,
    matchHeadingAt_heading h1 h2 hTtrim hTne hTnl]

/-- Witness for C5 at level 3 and text `T`. -/
theorem parseMarkdown_heading_level_border_witness :
    parseMarkdown (List.replicate 3 '#' ++ ' ' :: ['T']) =
      [{ type := some ItemType.heading, text := some ['T'],
         format := some { level := some 3,
                          borderBottom := some (decide (3 ≤ 2)) } }] :=
  parseMarkdown_heading_level_border 3 ['T'] (by decide) (by decide)
    (by decide) (by decide) (by decide)

/-! ## Blank-line spacer computations -/

theorem isListItemLine_false {l : Str} (hu : isUnorderedLine l = false)
    (ho : isOrderedLine l = false) : isListItemLine l = false := by
  rw [isListItemLine, hu, ho]
  rfl

theorem splitIntoBlocks_two_paragraphs {a b : Str} (n : Nat)
    (ha : plainParagraphLine a) (hb : plainParagraphLine b) (hn : 1 ≤ n) :
    splitIntoBlocks (a ++ List.replicate (n + 1) nlChar ++ b) =
      [a] ++ List.replicate (n - 1) [] ++ [b] := by
  obtain ⟨ha1, ha2, ha3, ha4, ha5, ha6⟩ := ha
  obtain ⟨hb1, hb2, hb3, hb4, hb5, hb6⟩ := hb
  obtain ⟨m, rfl⟩ : ∃ m, n = m + 1 := ⟨n - 1, by omega⟩
  have hlines : splitLines (a ++ List.replicate (m + 1 + 1) nlChar ++ b) =
      a :: [] :: (List.replicate m [] ++ [b]) := by
    rw [List.append_assoc, List.replicate_succ, List.cons_append,
      splitLines_append_cons ha3, splitLines_replicate_nl,
      splitLines_no_nl hb3, List.replicate_succ, List.cons_append]
  rw [splitIntoBlocks, hlines, List.foldl_cons,
    splitStep_plain [] 0 ha1 ha2 ha4 (isListItemLine_false ha5 ha6),
    List.foldl_cons,
    splitStep_blank_push _ 0 trim_nil (trim_ne_nil_of ha1 ha2),
    List.foldl_append, foldl_blanks, List.foldl_cons, List.foldl_nil,
    splitStep_plain _ _ hb1 hb2 hb4 (isListItemLine_false hb5 hb6)]
  simp [hb1, hb2, Nat.add_sub_cancel_left]

theorem parseBlock_no_spacer {blk : Str} (h : ¬ trim blk = []) :
    ∀ it ∈ parseBlock blk, isSpacerItem it = false := by
  intro it hit
  simp only [parseBlock] at hit
  rw [if_neg h] at hit
  split at hit
  · rw [List.mem_singleton] at hit
    subst hit
    rfl
  · split at hit
    · split at hit
      · rw [List.mem_singleton] at hit
        subst hit
        rfl
      · simp at hit
    · split at hit
      · split at hit
        · rw [List.mem_singleton] at hit
          subst hit
          rfl
        · simp at hit
      · rw [List.mem_singleton] at hit
        subst hit
        simp [isSpacerItem, h]

/-- C1: for two plain paragraph lines separated by a run of N consecutive
blank lines (N+1 newline characters), the parser emits exactly N-1
empty-text spacer paragraphs between the two paragraph items when N >= 1
(hence N-1 spacers for N >= 2 and zero for N = 1); with no blank line
(N = 0) the two lines join into one block and the output contains zero
empty-text spacer items; and concretely `A\n\n\nB` (two blank lines) parses
to exactly `[paragraph A, paragraph "", paragraph B]`. -/
theorem parseMarkdown_spacer_law :
    (∀ (a b : Str) (n : Nat), plainParagraphLine a → plainParagraphLine b →
      1 ≤ n →
      parseMarkdown (a ++ List.replicate (n + 1) nlChar ++ b) =
        [{ type := some ItemType.paragraph, text := some a }] ++
          List.replicate (n - 1)
            { type := some ItemType.paragraph, text := some [] } ++
          [{ type := some ItemType.paragraph, text := some b }]) ∧
    (∀ (a b : Str), plainParagraphLine a → plainParagraphLine b →
      (parseMarkdown (a ++ [nlChar] ++ b)).filter isSpacerItem = []) ∧
    parseMarkdown ['A', nlChar, nlChar, nlChar, 'B'] =
      [{ type := some ItemType.paragraph, text := some ['A'] },
       { type := some ItemType.paragraph, text := some [] },
       { type := some ItemType.paragraph, text := some ['B'] }] := by
  refine ⟨?_, ?_, by decide⟩
  · intro a b n ha hb hn
    obtain ⟨ha1, ha2, ha3, ha4, ha5, ha6⟩ := ha
    obtain ⟨hb1, hb2, hb3, hb4, hb5, hb6⟩ := hb
    rw [parseMarkdown,
      splitIntoBlocks_two_paragraphs n ⟨ha1, ha2, ha3, ha4, ha5, ha6⟩
        ⟨hb1, hb2, hb3, hb4, hb5, hb6⟩ hn,
      List.flatMap_append, List.flatMap_append, flatMap_replicate_spacer,
      List.flatMap_cons, List.flatMap_nil,
      parseBlock_plain ha1 ha2 ha3 ha4 ha5 ha6,
      List.flatMap_cons, List.flatMap_nil,
      parseBlock_plain hb1 hb2 hb3 hb4 hb5 hb6]
    simp
  · intro a b ha hb
    obtain ⟨ha1, ha2, ha3, ha4, ha5, ha6⟩ := ha
    obtain ⟨hb1, hb2, hb3, hb4, hb5, hb6⟩ := hb
    have hlines : splitLines (a ++ [nlChar] ++ b) = [a, b] := by
      rw [List.append_assoc, List.cons_append, List.nil_append,
        splitLines_append_cons ha3, splitLines_no_nl hb3]
    have htrim : trim (a ++ nlChar :: b) = a ++ nlChar :: b := by
      have := trim_sandwich ha1 ha2 hb1 hb2 [nlChar]
      simpa using this
    have hblocks : splitIntoBlocks (a ++ [nlChar] ++ b) = [a ++ nlChar :: b] := by
      rw [splitIntoBlocks, hlines, List.foldl_cons, List.foldl_cons,
        List.foldl_nil,
        splitStep_plain [] 0 ha1 ha2 ha4 (isListItemLine_false ha5 ha6),
        splitStep_plain_merge _ hb1 hb2 hb4 (isListItemLine_false hb5 hb6) ha2]
      simp [htrim]
    rw [parseMarkdown, hblocks, List.flatMap_cons, List.flatMap_nil,
      List.append_nil, List.filter_eq_nil_iff]
    intro it hit
    have hne2 : ¬ trim (a ++ nlChar :: b) = [] := by
      rw [htrim]
      simp
    have hno := parseBlock_no_spacer hne2 it hit
    simp [hno]

/-- Witness for C1 at `a = A`, `b = B`, two and one blank lines. -/
theorem parseMarkdown_spacer_law_witness :
    parseMarkdown (['A'] ++ List.replicate 3 nlChar ++ ['B']) =
      [{ type := some ItemType.paragraph, text := some ['A'] }] ++
        List.replicate 1 { type := some ItemType.paragraph, text := some [] } ++
        [{ type := some ItemType.paragraph, text := some ['B'] }] ∧
    (parseMarkdown (['A'] ++ [nlChar] ++ ['B'])).filter isSpacerItem = [] :=
  ⟨parseMarkdown_spacer_law.1 ['A'] ['B'] 2 (by decide) (by decide) (by decide),
   parseMarkdown_spacer_law.2.1 ['A'] ['B'] (by decide) (by decide)⟩

/-- C4 counterexample: a run of two blank lines at the very start of the
input (`\n\nA`) does contribute an empty-text spacer paragraph, so the
output is not just `[paragraph A]` as the claim would require. -/
theorem leading_blank_spacer_counterexample :
    parseMarkdown [nlChar, nlChar, 'A'] =
      [{ type := some ItemType.paragraph, text := some [] },
       { type := some ItemType.paragraph, text := some ['A'] }] ∧
    parseMarkdown [nlChar, nlChar, 'A'] ≠
      [{ type := some ItemType.paragraph, text := some ['A'] }] := by
  decide

/-- C4 amended: a run of blank lines at the very end of the input contributes
zero spacer paragraphs whatever its length, but a run of N blank lines at
the very start contributes max(0, N-1) spacer paragraphs before the first
block, exactly as an interior run would. -/
theorem blankRun_boundary_spacers :
    (∀ (a : Str) (n : Nat), plainParagraphLine a →
      parseMarkdown (a ++ List.replicate n nlChar) =
        [{ type := some ItemType.paragraph, text := some a }]) ∧
    (∀ (b : Str) (n : Nat), plainParagraphLine b →
      parseMarkdown (List.replicate n nlChar ++ b) =
        List.replicate (n - 1)
            { type := some ItemType.paragraph, text := some [] } ++
          [{ type := some ItemType.paragraph, text := some b }]) := by
  constructor
  · intro a n ha
    obtain ⟨ha1, ha2, ha3, ha4, ha5, ha6⟩ := ha
    cases n with
    | zero =>
      rw [List.replicate_zero, List.append_nil, parseMarkdown,
        splitIntoBlocks_single ha1 ha2 ha3, List.flatMap_cons, List.flatMap_nil,
        parseBlock_plain ha1 ha2 ha3 ha4 ha5 ha6, List.append_nil]
    | succ m =>
      have hlines : splitLines (a ++ List.replicate (m + 1) nlChar) =
          a :: List.replicate (m + 1) [] := by
        rw [List.replicate_succ, splitLines_append_cons ha3,
          ← List.append_nil (List.replicate m nlChar), splitLines_replicate_nl]
        simp [splitLines, List.replicate_succ']
      rw [parseMarkdown, splitIntoBlocks, hlines, List.foldl_cons,
        splitStep_plain [] 0 ha1 ha2 ha4 (isListItemLine_false ha5 ha6),
        List.replicate_succ, List.foldl_cons,
        splitStep_blank_push _ 0 trim_nil (trim_ne_nil_of ha1 ha2),
        foldl_blanks]
      simp [trim_nil, parseBlock_plain ha1 ha2 ha3 ha4 ha5 ha6]
  · intro b n hb
    obtain ⟨hb1, hb2, hb3, hb4, hb5, hb6⟩ := hb
    have hlines : splitLines (List.replicate n nlChar ++ b) =
        List.replicate n [] ++ [b] := by
      rw [splitLines_replicate_nl, splitLines_no_nl hb3]
    rw [parseMarkdown, splitIntoBlocks, hlines, List.foldl_append,
      foldl_blanks, List.foldl_cons, List.foldl_nil,
      splitStep_plain _ _ hb1 hb2 hb4 (isListItemLine_false hb5 hb6)]
    simp [hb1, hb2, flatMap_replicate_spacer,
      parseBlock_plain hb1 hb2 hb3 hb4 hb5 hb6]

/-- Witness for the amended C4 at `A` with three trailing and two leading
blank-line newlines. -/
theorem blankRun_boundary_spacers_witness :
    parseMarkdown (['A'] ++ List.replicate 3 nlChar) =
      [{ type := some ItemType.paragraph, text := some ['A'] }] ∧
    parseMarkdown (List.replicate 2 nlChar ++ ['A']) =
      List.replicate 1 { type := some ItemType.paragraph, text := some [] } ++
        [{ type := some ItemType.paragraph, text := some ['A'] }] :=
  ⟨blankRun_boundary_spacers.1 ['A'] 3 (by decide),
   blankRun_boundary_spacers.2 ['A'] 2 (by decide)⟩

/-! ## Mixed list runs -/

theorem joinLines_head {c : Char} {t : Str} (ls : List Str) :
    ∃ r, joinLines ((c :: t) :: ls) = c :: r := by
  cases ls with
  | nil => exact ⟨t, rfl⟩
  | cons x xs =>
    exact ⟨t ++ nlChar :: joinLines (x :: xs), by
      rw [joinLines_cons_cons, List.cons_append]⟩

theorem matchHeadingAt_head_ne_hash {c : Char} {t : Str} (hc : c ≠ '#') :
    matchHeadingAt (c :: t) = none := by
  have h0 : countHashes (c :: t) = 0 := by
    rw [countHashes, List.takeWhile_cons]
    simp [hc]
  rw [matchHeadingAt, h0]
  simp

theorem findSome?_heading_list_suffixes {L : List Str}
    (h : ∀ l ∈ L, isListItemLine l = true) :
    (lineSuffixes L).findSome? matchHeadingAt = none := by
  induction L with
  | nil => rfl
  | cons l ls ih =>
    rw [lineSuffixes, List.findSome?_cons]
    obtain ⟨c, t, rfl⟩ : ∃ c t, l = c :: t := by
      cases hl : l with
      | nil => exact absurd hl (isList_ne_nil (h l (List.mem_cons_self ..)))
      | cons c t => exact ⟨c, t, rfl⟩
    have hc : c ≠ '#' := isList_head_ne_hash (h _ (List.mem_cons_self ..))
    obtain ⟨r, hr⟩ := joinLines_head (c := c) (t := t) ls
    rw [hr, matchHeadingAt_head_ne_hash hc]
    exact ih (fun x hx => h x (List.mem_cons_of_mem _ hx))

theorem isUnorderedLine_two_chars {c d : Char} {t r : Str}
    (h : isUnorderedLine (c :: d :: t) = true) :
    isUnorderedLine (c :: d :: r) = true := by
  rw [isUnorderedLine] at h ⊢
  exact h

theorem any_unordered_suffixes {L : List Str}
    (hex : ∃ l ∈ L, isUnorderedLine l = true) :
    (lineSuffixes L).any isUnorderedLine = true := by
  induction L with
  | nil =>
    obtain ⟨w, hw, _⟩ := hex
    simp at hw
  | cons l ls ih =>
    rw [lineSuffixes, List.any_cons]
    obtain ⟨w, hw, hwu⟩ := hex
    rcases List.mem_cons.mp hw with rfl | hw'
    · obtain ⟨c, d, t, rfl⟩ : ∃ c d t, w = c :: d :: t := by
        cases w with
        | nil => simp [isUnorderedLine] at hwu
        | cons c t' =>
          cases t' with
          | nil => simp [isUnorderedLine] at hwu
          | cons d t => exact ⟨c, d, t, rfl⟩
      cases ls with
      | nil =>
        rw [show joinLines [c :: d :: t] = c :: d :: t from rfl, hwu]
        rfl
      | cons x xs =>
        rw [joinLines_cons_cons, List.cons_append, List.cons_append,
          isUnorderedLine_two_chars hwu]
        rfl
    · rw [ih ⟨w, hw', hwu⟩]
      simp

theorem parseBlock_list_run {L : List Str} (hL : L ≠ [])
    (h : ∀ l ∈ L, trim l = l ∧ nlChar ∉ l ∧ isListItemLine l = true)
    (hex : ∃ l ∈ L, isUnorderedLine l = true) :
    parseBlock (joinLines L) =
      [{ type := some ItemType.bullets,
         items := some ((L.filter isUnorderedLine).map unorderedItemText) }] := by
  have hmem_ne : ∀ l ∈ L, l ≠ [] := fun l hl => isList_ne_nil (h l hl).2.2
  have htrim := trim_joinLines hL (fun l hl => ⟨(h l hl).1, hmem_ne l hl⟩)
  have hne : joinLines L ≠ [] := joinLines_ne_nil hL hmem_ne
  have hsplit := splitLines_joinLines hL (fun l hl => (h l hl).2.1)
  rw [parseBlock]
  simp only [htrim, blockHeadingMatch, hsplit]
  rw [if_neg hne]
  rw [findSome?_heading_list_suffixes (fun l hl => (h l hl).2.2)]
  have hany := any_unordered_suffixes hex
  have hpos : 0 < ((L.filter isUnorderedLine).map unorderedItemText).length := by
    obtain ⟨w, hw, hwu⟩ := hex
    have hmem : w ∈ L.filter isUnorderedLine := List.mem_filter.mpr ⟨hw, hwu⟩
    rw [List.length_map]
    exact List.length_pos.mpr (List.ne_nil_of_mem hmem)
  simp [hany, hpos]
  exact hex

/-- C10: a contiguous run of list-item lines mixing unordered and ordered
markers parses to exactly one bullets item whose items are the extracted
texts of the unordered-marked lines only; the ordered-marked lines of the
run appear in no output item. -/
theorem parseMarkdown_mixed_list_run (L : List Str) (hL : L ≠ [])
    (h : ∀ l ∈ L, trim l = l ∧ nlChar ∉ l ∧ isListItemLine l = true)
    (hexu : ∃ l ∈ L, isUnorderedLine l = true)
    (hexo : ∃ l ∈ L, isOrderedLine l = true) :
    parseMarkdown (joinLines L) =
      [{ type := some ItemType.bullets,
         items := some ((L.filter isUnorderedLine).map unorderedItemText) }] := by
  have hmem_ne : ∀ l ∈ L, l ≠ [] := fun l hl => isList_ne_nil (h l hl).2.2
  have htrim := trim_joinLines hL (fun l hl => ⟨(h l hl).1, hmem_ne l hl⟩)
  have hne : joinLines L ≠ [] := joinLines_ne_nil hL hmem_ne
  have hsplit := splitLines_joinLines hL (fun l hl => (h l hl).2.1)
  cases L with
  | nil => exact absurd rfl hL
  | cons l0 ls =>
    obtain ⟨hl01, _, hl03⟩ := h l0 (List.mem_cons_self ..)
    rw [parseMarkdown, splitIntoBlocks, hsplit, List.foldl_cons,
      splitStep_list_start [] 0 hl01 hl03]
    simp only [Nat.zero_sub, List.replicate_zero, List.append_nil]
    rw [foldl_list_cont ls l0 (isList_ne_nil hl03)
      (fun x hx => ⟨(h x (List.mem_cons_of_mem l0 hx)).1,
        (h x (List.mem_cons_of_mem l0 hx)).2.2⟩)]
    simp [htrim, hne, parseBlock_list_run hL h hexu]

/-- Witness for C10 at the two-line run `- a` / `1. b`. -/
theorem parseMarkdown_mixed_list_run_witness :
    parseMarkdown (joinLines [['-', ' ', 'a'], ['1', '.', ' ', 'b']]) =
      [{ type := some ItemType.bullets,
         items := some (([['-', ' ', 'a'], ['1', '.', ' ', 'b']].filter
            isUnorderedLine).map unorderedItemText) }] :=
  parseMarkdown_mixed_list_run [['-', ' ', 'a'], ['1', '.', ' ', 'b']]
    (by decide) (by decide) (by decide) (by decide)

/-! ## Blockquote handling -/

/-- C6 counterexample: the line-based parser has no blockquote rule; the
input `> q` parses to a plain paragraph whose text keeps the `>` marker and
whose `format` is absent, so no output item carries `format.italic = true`. -/
theorem blockquote_counterexample :
    parseMarkdown ['>', ' ', 'q'] =
      [{ type := some ItemType.paragraph, text := some ['>', ' ', 'q'] }] ∧
    (parseMarkdown ['>', ' ', 'q']).map ContentItem.format = [none] := by
  decide

theorem quote_line_not_heading {t : Str} : isHeadingLine ('>' :: t) = false := by
  have : countHashes ('>' :: t) = 0 := by
    rw [countHashes, List.takeWhile_cons]
    simp
  rw [isHeadingLine, this]
  simp

theorem quote_line_not_unordered {t : Str} : isUnorderedLine ('>' :: t) = false := by
  cases t with
  | nil => rfl
  | cons d t' => simp [isUnorderedLine]

theorem quote_line_not_ordered {t : Str} : isOrderedLine ('>' :: t) = false := by
  rw [isOrderedLine, List.takeWhile_cons]
  simp [Char.isDigit]

/-- C6 amended: an input line starting with `>` is parsed as an ordinary
paragraph item with the literal (trimmed) text, and no `format` at all - in
particular no `format.italic = true`; separately, the style resolution of the
mapper assigns a paragraph-kind item the blockquote bucket exactly when its
`format.italic` is `true`, and the paragraph bucket otherwise, so a parsed
`>` line lands in the paragraph bucket. -/
theorem blockquote_amended :
    (∀ t : Str, trim ('>' :: t) = '>' :: t → nlChar ∉ ('>' :: t) →
      parseMarkdown ('>' :: t) =
        [{ type := some ItemType.paragraph, text := some ('>' :: t) }]) ∧
    (∀ (styles : MarkdownStyles) (item : ContentItem),
      (item.type = none ∨ item.type = some ItemType.paragraph) →
      resolveBucket styles item =
        some (if item.format.bind Format.italic = some true then
          styles.blockquote else styles.paragraph)) := by
  constructor
  · intro t htrim hnl
    rw [parseMarkdown, splitIntoBlocks_single htrim (by simp) hnl,
      List.flatMap_cons, List.flatMap_nil, List.append_nil,
      parseBlock_plain htrim (by simp) hnl quote_line_not_heading
        quote_line_not_unordered quote_line_not_ordered]
  · intro styles item htype
    rcases htype with htype | htype <;>
      · rw [resolveBucket, htype]
        by_cases hi : item.format.bind Format.italic = some true <;>
          simp [hi]

/-- Witness for the amended C6 at the line `> q` and an item with no format. -/
theorem blockquote_amended_witness :
    parseMarkdown ['>', ' ', 'q'] =
      [{ type := some ItemType.paragraph, text := some ['>', ' ', 'q'] }] ∧
    resolveBucket DEFAULT_MARKDOWN_STYLES
        { type := some ItemType.paragraph, text := some ['>', ' ', 'q'] } =
      some (if (none : Option Format).bind Format.italic = some true then
        DEFAULT_MARKDOWN_STYLES.blockquote else DEFAULT_MARKDOWN_STYLES.paragraph) :=
  ⟨blockquote_amended.1 [' ', 'q'] (by decide) (by decide),
   blockquote_amended.2 DEFAULT_MARKDOWN_STYLES
     { type := some ItemType.paragraph, text := some ['>', ' ', 'q'] }
     (Or.inr rfl)⟩

/-! ## Style precedence and sheet merging -/

/-- C7: the effective style of a mapped item is the resolved bucket style
shallow-merged with the item's own format, per-item fields winning: with a
paragraph bucket of fontSize 12 and an item-level fontSize 20 the effective
font size is 20; and a caller-supplied partial sheet replaces whole buckets
per key (a supplied heading1 becomes the heading1 bucket verbatim) while
every unsupplied key keeps the built-in default bucket. -/
theorem style_precedence_and_sheet_merge :
    (∀ (styles : MarkdownStyles) (item : ContentItem) (f : Format),
      item.type = some ItemType.paragraph → item.format = some f →
      f.italic ≠ some true → styles.paragraph.fontSize = some 12 →
      f.fontSize = some 20 →
      applyStylesToContent [item] styles =
        [{ item with format := some (mergeFormat styles.paragraph (some f)) }] ∧
      (mergeFormat styles.paragraph (some f)).fontSize = some 20) ∧
    (∀ (o : PartialMarkdownStyles) (h1 : MarkdownElementStyle),
      o.heading1 = some h1 → (mergeMarkdownStyles o).heading1 = h1) ∧
    (∀ o : PartialMarkdownStyles, o.heading2 = none →
      (mergeMarkdownStyles o).heading2 = DEFAULT_MARKDOWN_STYLES.heading2) ∧
    (∀ o : PartialMarkdownStyles,
      (mergeMarkdownStyles o).heading1 = o.heading1.getD DEFAULT_MARKDOWN_STYLES.heading1 ∧
      (mergeMarkdownStyles o).heading2 = o.heading2.getD DEFAULT_MARKDOWN_STYLES.heading2 ∧
      (mergeMarkdownStyles o).heading3 = o.heading3.getD DEFAULT_MARKDOWN_STYLES.heading3 ∧
      (mergeMarkdownStyles o).heading4 = o.heading4.getD DEFAULT_MARKDOWN_STYLES.heading4 ∧
      (mergeMarkdownStyles o).paragraph = o.paragraph.getD DEFAULT_MARKDOWN_STYLES.paragraph ∧
      (mergeMarkdownStyles o).bullets = o.bullets.getD DEFAULT_MARKDOWN_STYLES.bullets ∧
      (mergeMarkdownStyles o).ordered = o.ordered.getD DEFAULT_MARKDOWN_STYLES.ordered ∧
      (mergeMarkdownStyles o).blockquote = o.blockquote.getD DEFAULT_MARKDOWN_STYLES.blockquote) := by
  refine ⟨?_, ?_, ?_, ?_⟩
  · intro styles item f htype hfmt hitalic hbucket hfsize
    have hbd : item.format.bind Format.italic ≠ some true := by
      rw [hfmt]
      simpa using hitalic
    constructor
    · rw [applyStylesToContent, List.map_cons, List.map_nil, resolveBucket, htype]
      simp only [Option.getD_some]
      rw [if_neg hbd, hfmt]
    · rw [mergeFormat]
      simp [hfsize]
  · intro o h1 h
    rw [mergeMarkdownStyles, h]
    rfl
  · intro o h
    rw [mergeMarkdownStyles, h]
    rfl
  · intro o
    exact ⟨rfl, rfl, rfl, rfl, rfl, rfl, rfl, rfl⟩

/-- Witness for C7 at a concrete paragraph item with fontSize 20 over the
default sheet's fontSize-12 paragraph bucket, and a sheet supplying only
heading1. -/
theorem style_precedence_and_sheet_merge_witness :
    (applyStylesToContent
        [{ type := some ItemType.paragraph, text := some ['x'],
           format := some { fontSize := some 20 } }] DEFAULT_MARKDOWN_STYLES =
      [{ type := some ItemType.paragraph, text := some ['x'],
         format := some (mergeFormat DEFAULT_MARKDOWN_STYLES.paragraph
           (some { fontSize := some 20 })) }] ∧
      (mergeFormat DEFAULT_MARKDOWN_STYLES.paragraph
        (some { fontSize := some 20 })).fontSize = some 20) ∧
    (mergeMarkdownStyles { heading1 := some { fontSize := some 48 } }).heading1 =
      { fontSize := some 48 } :=
  ⟨style_precedence_and_sheet_merge.1 DEFAULT_MARKDOWN_STYLES
      { type := some ItemType.paragraph, text := some ['x'],
        format := some { fontSize := some 20 } }
      { fontSize := some 20 } rfl rfl (by decide) (by decide) (by decide),
   style_precedence_and_sheet_merge.2.1
     { heading1 := some { fontSize := some 48 } } { fontSize := some 48 } rfl⟩

/-! ## Batch-mapper skip rules -/

theorem addParagraphElems_length (t : Str) (f : ParaFormat) :
    (addParagraphElems t f).length = 1 := by
  rw [addParagraphElems]
  split
  · rfl
  · split <;> rfl

/-- C8 counterexample: a bullets item whose single item is the empty string
has zero usable items under the spec's trim-and-filter reading, yet the
batch mapper does not skip it - it emits one bullet-list element. -/
theorem bullets_no_usable_items_counterexample :
    specUsableItems { type := some ItemType.bullets, items := some [[]] } = [] ∧
    contentItemElems { type := some ItemType.bullets, items := some [[]] } ≠ [] ∧
    (contentItemElems { type := some ItemType.bullets, items := some [[]] }).length = 1 := by
  decide

/-- C8 amended: the batch mapper silently skips a paragraph item with no
text field, a heading item with missing or empty text, and a bullets or
ordered item with a missing or empty items array (no trim-based filtering:
every element of a non-empty items array yields a list element); an item
with kind omitted is treated as a paragraph only if its text field is
present (even as the empty string, contributing exactly one element), and an
item with neither text nor items is skipped. -/
theorem content_skip_rules :
    (∀ item : ContentItem, item.text = none → item.items = none →
      contentItemElems item = []) ∧
    (∀ item : ContentItem,
      (item.type = none ∨ item.type = some ItemType.paragraph) →
      item.text = none → contentItemElems item = []) ∧
    (∀ item : ContentItem, item.type = some ItemType.heading →
      (item.text = none ∨ item.text = some []) → contentItemElems item = []) ∧
    (∀ item : ContentItem,
      (item.type = some ItemType.bullets ∨ item.type = some ItemType.ordered) →
      (item.items = none ∨ item.items = some []) → contentItemElems item = []) ∧
    (∀ item : ContentItem, item.type = some ItemType.bullets →
      ∀ is, item.items = some is →
        (contentItemElems item).length = is.length) ∧
    (∀ (item : ContentItem) (t : Str), item.type = none → item.text = some t →
      contentItemElems item = addParagraphElems t (paraFormatOf item.format) ∧
      (contentItemElems item).length = 1) := by
  refine ⟨?_, ?_, ?_, ?_, ?_, ?_⟩
  · intro item htext hitems
    rw [contentItemElems]
    cases htype : item.type with
    | none => simp [htext]
    | some ty => cases ty <;> simp [htext, hitems]
  · intro item htype htext
    rcases htype with htype | htype <;>
      · rw [contentItemElems, htype]
        simp [htext]
  · intro item htype htext
    rw [contentItemElems, htype]
    rcases htext with htext | htext <;> simp [htext]
  · intro item htype hitems
    rcases htype with htype | htype <;> rw [contentItemElems, htype] <;>
      rcases hitems with hitems | hitems <;> simp [hitems]
  · intro item htype is hitems
    rw [contentItemElems, htype]
    simp only [Option.getD_some, hitems]
    cases is with
    | nil => simp
    | cons x xs => simp [addBulletListElems]
  · intro item t htype htext
    have hc : contentItemElems item = addParagraphElems t (paraFormatOf item.format) := by
      rw [contentItemElems, htype]
      simp [htext]
    refine ⟨hc, ?_⟩
    rw [hc]
    exact addParagraphElems_length t (paraFormatOf item.format)

/-- Witness for the amended C8 at concrete items: a text-less paragraph, an
empty-text heading, an empty bullets item, a bullets item with one
whitespace-only entry, and a kind-less empty-text item. -/
theorem content_skip_rules_witness :
    contentItemElems { type := some ItemType.paragraph } = [] ∧
    contentItemElems { type := some ItemType.heading, text := some [] } = [] ∧
    contentItemElems { type := some ItemType.bullets, items := some [] } = [] ∧
    (contentItemElems { type := some ItemType.bullets, items := some [[' ']] }).length =
      [[' ']].length ∧
    (contentItemElems { text := some [] }).length = 1 :=
  ⟨content_skip_rules.2.1 _ (Or.inr rfl) rfl,
   content_skip_rules.2.2.1 _ rfl (Or.inr rfl),
   content_skip_rules.2.2.2.1 _ (Or.inl rfl) (Or.inr rfl),
   content_skip_rules.2.2.2.2.1 _ rfl [[' ']] rfl,
   (content_skip_rules.2.2.2.2.2 { text := some [] } [] rfl rfl).2⟩

/-! ## Session lifecycle -/

/-- C9: persisting or finalizing a document identifier with no existing
session fails with the explicit session-not-found error, while every
content-adding operation on such an identifier never errors and instead
lazily creates the session before appending its elements. -/
theorem session_lifecycle (st : Sessions) (fn : Str) (h : st fn = none) :
    saveDocumentOp st fn = .error (noSessionMsg fn) ∧
    closeDocumentOp st fn = .error (noSessionMsg fn) ∧
    (∀ (t : Str) (f : ParaFormat),
      addParagraphOp st fn t f fn =
        some { title := none, author := none,
               children := addParagraphElems t f }) ∧
    (∀ (t : Str) (o : HeadingOptions),
      addHeadingOp st fn t o fn =
        some { title := none, author := none,
               children := addHeadingElems t o }) ∧
    (∀ (items : List Str) (f : ListFormat),
      addBulletListOp st fn items f fn =
        some { title := none, author := none,
               children := addBulletListElems items f }) ∧
    (∀ (items : List Str) (f : ListFormat),
      addOrderedListOp st fn items f fn =
        some { title := none, author := none,
               children := addOrderedListElems items f }) := by
  have hsave : saveDocumentOp st fn = .error (noSessionMsg fn) := by
    rw [saveDocumentOp, getSession, h]
  have hadd : ∀ elems : List DocxElem,
      addElemsOp st fn elems fn =
        some { title := none, author := none, children := elems } := by
    intro elems
    rw [addElemsOp, getOrCreateSession, h]
    simp [setSession]
  refine ⟨hsave, ?_, ?_, ?_, ?_, ?_⟩
  · rw [closeDocumentOp, hsave]
  · intro t f
    exact hadd (addParagraphElems t f)
  · intro t o
    exact hadd (addHeadingElems t o)
  · intro items f
    exact hadd (addBulletListElems items f)
  · intro items f
    exact hadd (addOrderedListElems items f)

/-- Witness for C9 at the empty session map and the identifier `d`. -/
theorem session_lifecycle_witness :
    saveDocumentOp (fun _ => none) ['d'] = .error (noSessionMsg ['d']) ∧
    closeDocumentOp (fun _ => none) ['d'] = .error (noSessionMsg ['d']) ∧
    addParagraphOp (fun _ => none) ['d'] ['x'] {} ['d'] =
      some { title := none, author := none,
             children := addParagraphElems ['x'] {} } := by
  have h := session_lifecycle (fun _ => none) ['d'] rfl
  exact ⟨h.1, h.2.1, h.2.2.1 ['x'] {}⟩

end MCPDocx
